import Mathlib

/-!
Verification of the deposit-rate scraper core.

Shallow embedding of the Python sources of `deposit-rate-scraper`
(`src/deposits/utils.py`, `parsers.py`, `http.py`, `cli.py`, `models.py`)
and proofs about the embedded definitions.

Conventions of the embedding:
* Python `float` values are modelled as `ℚ` (all arithmetic in the program
  is decimal literals, division by 100, and order comparisons, which are
  exact on `ℚ`).
* Python strings are Lean `String`s; `str.lower()` is `pyLower`,
  `str.strip()` is `pyStrip`, slicing `[:n]` is `pyTake` (all defined
  below by plain structural recursion so that concrete instances reduce).
* The regular expressions `PCT_RE`, `NUM_RE` and the substring tests
  (`x in s`) are modelled by explicit scanning functions over `List Char`.
* HTML documents (BeautifulSoup values) are modelled by their extracted
  text content: a table is a list of rows of cell texts, a generic block
  is its text plus the name `_pick_name_from_block` would return for it,
  an anchor is its resolved absolute href plus its text.  Network fetches
  are modelled by a function from URL to page data.
-/

namespace Scraper

/-! Basic string machinery (Python `in`, `split`, `lstrip`, number parsing) -/

/-- Model of `listHasPre pat s`: `pat` is a prefix of `s` (character lists). -/
def listHasPre : List Char → List Char → Bool
  | [], _ => true
  | _ :: _, [] => false
  | p :: ps, c :: cs => p == c && listHasPre ps cs

/-- Model of `listHasSub pat s`: `pat` occurs as a contiguous substring of `s`.
Models Python's `pat in s` on strings. -/
def listHasSub : List Char → List Char → Bool
  | pat, [] => pat.isEmpty
  | pat, c :: cs => listHasPre pat (c :: cs) || listHasSub pat cs

/-- Python `pat in hay` for strings. -/
def strHas (hay pat : String) : Bool := listHasSub pat.data hay.data

/-- Python `s.lower()` (ASCII case mapping, as in Lean's `Char.toLower`). -/
def pyLower (s : String) : String := String.mk (s.data.map Char.toLower)

/-- Python `s.upper()` (ASCII case mapping). -/
def pyUpper (s : String) : String := String.mk (s.data.map Char.toUpper)

/-- Python `s.strip()`: remove leading and trailing whitespace. -/
def pyStrip (s : String) : String :=
  String.mk (((s.data.dropWhile Char.isWhitespace).reverse.dropWhile Char.isWhitespace).reverse)

/-- Python `s[:n]`. -/
def pyTake (s : String) (n : Nat) : String := String.mk (s.data.take n)

/-- Python `s.endswith(suf)`. -/
def strEndsWith (s suf : String) : Bool := listHasPre suf.data.reverse s.data.reverse

/-- Python `s.startswith(pre)`. -/
def strStarts (s pre : String) : Bool := listHasPre pre.data s.data

/-- Python `sep.join(xs)`. -/
def joinSep (sep : String) : List String → String
  | [] => ""
  | [x] => x
  | x :: xs => x ++ sep ++ joinSep sep xs

theorem listHasPre_iff (pat s : List Char) :
    listHasPre pat s = true ↔ ∃ r, s = pat ++ r := by
  induction pat generalizing s with
  | nil => simp [listHasPre]
  | cons p ps ih =>
    cases s with
    | nil => simp [listHasPre]
    | cons c cs =>
      simp only [listHasPre, Bool.and_eq_true, beq_iff_eq, ih]
      constructor
      · rintro ⟨rfl, r, rfl⟩; exact ⟨r, rfl⟩
      · rintro ⟨r, h⟩
        cases h
        exact ⟨rfl, r, rfl⟩

theorem listHasSub_iff (pat s : List Char) :
    listHasSub pat s = true ↔ ∃ l r, s = l ++ pat ++ r := by
  induction s with
  | nil =>
    simp only [listHasSub, List.isEmpty_iff]
    constructor
    · rintro rfl; exact ⟨[], [], rfl⟩
    · rintro ⟨l, r, h⟩
      rcases List.append_eq_nil.mp h.symm with ⟨h1, h2⟩
      exact (List.append_eq_nil.mp h1).2
  | cons c cs ih =>
    simp only [listHasSub, Bool.or_eq_true, listHasPre_iff, ih]
    constructor
    · rintro (⟨r, h⟩ | ⟨l, r, h⟩)
      · exact ⟨[], r, by simp [h]⟩
      · exact ⟨c :: l, r, by simp [h]⟩
    · rintro ⟨l, r, h⟩
      cases l with
      | nil => exact Or.inl ⟨r, by simpa using h⟩
      | cons x xs =>
        right
        have h' : c = x ∧ cs = xs ++ (pat ++ r) := by simpa using h
        exact ⟨xs, r, by simpa [List.append_assoc] using h'.2⟩

/-- Substring of a substring is a substring. -/
theorem listHasSub_trans {p q s : List Char} (h1 : listHasSub p q = true)
    (h2 : listHasSub q s = true) : listHasSub p s = true := by
  rw [listHasSub_iff] at h1 h2 ⊢
  obtain ⟨l1, r1, rfl⟩ := h1
  obtain ⟨l2, r2, rfl⟩ := h2
  exact ⟨l2 ++ l1, r1 ++ r2, by simp⟩

/-- Maximal leading run of decimal digits, with the remainder. -/
def takeDigits : List Char → List Char × List Char
  | [] => ([], [])
  | c :: cs =>
    if c.isDigit then
      let (d, r) := takeDigits cs
      (c :: d, r)
    else ([], c :: cs)

theorem takeDigits_append (s : List Char) :
    (takeDigits s).1 ++ (takeDigits s).2 = s := by
  induction s with
  | nil => rfl
  | cons c cs ih =>
    by_cases h : c.isDigit <;> simp [takeDigits, h, ih]

theorem takeDigits_snd_length (s : List Char) :
    (takeDigits s).2.length ≤ s.length := by
  conv_rhs => rw [← takeDigits_append s]
  simp

/-- Maximal leading run of whitespace, with the remainder. -/
def takeSpaces : List Char → List Char × List Char
  | [] => ([], [])
  | c :: cs =>
    if c.isWhitespace then
      let (d, r) := takeSpaces cs
      (c :: d, r)
    else ([], c :: cs)

/-- Numeric value of a digit run (most significant first). -/
def natValN (ds : List Char) : Nat :=
  ds.foldl (fun a c => 10 * a + (c.toNat - '0'.toNat)) 0

/-- Model of `x / 100` on `ℚ`.  (Expressed through `mkRat` because the ambient
`Rat.mul`/`Rat.inv` are `@[irreducible]` in this toolchain; `div100_eq`
below proves it equal to division by 100.) -/
def div100 (v : ℚ) : ℚ := mkRat v.num (v.den * 100)

theorem div100_eq (v : ℚ) : div100 v = v / 100 := by
  rw [div100, Rat.mkRat_eq_divInt, Rat.divInt_eq_div]
  push_cast
  rw [← div_div, Rat.num_div_den]

/-- Model of Python `float(s)` on plain decimal literals: optional
whitespace, optional sign, `d+`, `d+.d*` or `.d+`, with value
`±(intpart.fracpart)` as an exact rational.  (Exponent forms never
occur in this program: every argument is a regex `\d+(?:[.,]\d+)?` capture
with `,` replaced by `.`, or a string that the caller treats as opaque.) -/
def pyFloat (raw : List Char) : Option ℚ :=
  let s := ((raw.dropWhile Char.isWhitespace).reverse.dropWhile Char.isWhitespace).reverse
  let (neg, s1) : Bool × List Char :=
    match s with
    | '+' :: r => (false, r)
    | '-' :: r => (true, r)
    | _ => (false, s)
  let sgn : Int := if neg then -1 else 1
  let (d1, r1) := takeDigits s1
  match r1 with
  | [] => if d1.isEmpty then none else some (mkRat (sgn * natValN d1) 1)
  | '.' :: r2 =>
    let (d2, r3) := takeDigits r2
    if !r3.isEmpty then none
    else if d1.isEmpty && d2.isEmpty then none
    else some (mkRat (sgn * (natValN d1 * 10 ^ d2.length + natValN d2)) (10 ^ d2.length))
  | _ => none

/-- Python `s.replace(",", ".")`. -/
def commaToDot (s : List Char) : List Char :=
  s.map fun c => if c == ',' then '.' else c

/-! The regexes `PCT_RE = (?P<num>\d+(?:[.,]\d+)?)\s*%` and
`NUM_RE = (?P<num>\d+(?:[.,]\d+)?)` of `parsers.py`. -/

/-- Try to match `PCT_RE` at the start of `s`.  Returns
`(group0, num)`: the whole match and the `num` group.  (Backtracking
cannot rescue a failed attempt here: after a maximal digit run the next
character is not a digit, so shrinking `\d+` or dropping the optional
fraction group never produces a match that the greedy scan misses.) -/
def matchPctAt (s : List Char) : Option (List Char × List Char) :=
  let (d1, r1) := takeDigits s
  if d1.isEmpty then none
  else
    match r1 with
    | sep :: r2 =>
      if sep == '.' || sep == ',' then
        let (d2, r3) := takeDigits r2
        if d2.isEmpty then none
        else
          let (sp, r4) := takeSpaces r3
          match r4 with
          | '%' :: _ => some (d1 ++ sep :: d2 ++ sp ++ ['%'], d1 ++ sep :: d2)
          | _ => none
      else
        let (sp, r4) := takeSpaces r1
        match r4 with
        | '%' :: _ => some (d1 ++ sp ++ ['%'], d1)
        | _ => none
    | [] =>
      let (sp, r4) := takeSpaces r1
      match r4 with
      | '%' :: _ => some (d1 ++ sp ++ ['%'], d1)
      | _ => none

/-- Model of `PCT_RE.search`: leftmost match, scanning start positions left to
right. -/
def pctSearch : List Char → Option (List Char × List Char)
  | [] => none
  | c :: cs =>
    match matchPctAt (c :: cs) with
    | some m => some m
    | none => pctSearch cs

/-- Try to match `NUM_RE` at the start of `s`; returns the token and the
remainder after it. -/
def matchNumAt (s : List Char) : Option (List Char × List Char) :=
  let (d1, r1) := takeDigits s
  if d1.isEmpty then none
  else
    match r1 with
    | sep :: r2 =>
      if sep == '.' || sep == ',' then
        let (d2, r3) := takeDigits r2
        if d2.isEmpty then some (d1, r1) else some (d1 ++ sep :: d2, r3)
      else some (d1, r1)
    | [] => some (d1, [])

theorem matchNumAt_shrinks (s tok rest : List Char)
    (h : matchNumAt s = some (tok, rest)) :
    tok ≠ [] ∧ tok.length + rest.length ≤ s.length := by
  unfold matchNumAt at h
  rcases hd : takeDigits s with ⟨d1, r1⟩
  rw [hd] at h
  have happ : d1 ++ r1 = s := by
    have := takeDigits_append s; rw [hd] at this; exact this
  by_cases h1 : d1.isEmpty
  · simp [h1] at h
  · simp only [h1, Bool.false_eq_true, if_false] at h
    have hd1ne : d1 ≠ [] := by simpa [List.isEmpty_iff] using h1
    have hlen : d1.length + r1.length = s.length := by
      rw [← happ]; simp
    cases r1 with
    | nil =>
      simp only [Option.some.injEq, Prod.mk.injEq] at h
      rw [← h.1, ← h.2]
      exact ⟨hd1ne, by simpa using Nat.le_of_eq hlen⟩
    | cons sep r2 =>
      by_cases hsep : (sep == '.' || sep == ',') = true
      · simp only [hsep, if_true] at h
        rcases hd2 : takeDigits r2 with ⟨d2, r3⟩
        rw [hd2] at h
        have hlen2 : d2.length + r3.length = r2.length := by
          have := takeDigits_append r2; rw [hd2] at this
          rw [← this]; simp
        by_cases h2 : d2.isEmpty
        · simp only [h2, if_true, Option.some.injEq, Prod.mk.injEq] at h
          rw [← h.1, ← h.2]
          exact ⟨hd1ne, Nat.le_of_eq hlen⟩
        · simp only [h2, Bool.false_eq_true, if_false, Option.some.injEq, Prod.mk.injEq] at h
          rw [← h.1, ← h.2]
          refine ⟨by simp, ?_⟩
          simp only [List.length_append, List.length_cons] at hlen ⊢
          omega
      · simp only [hsep, Bool.false_eq_true, if_false, Option.some.injEq, Prod.mk.injEq] at h
        rw [← h.1, ← h.2]
        exact ⟨hd1ne, Nat.le_of_eq hlen⟩

/-- Model of `NUM_RE.finditer` with explicit fuel (structural recursion so that
concrete instances reduce; `numsFuel_congr` shows any fuel of at least
the input length gives the same result). -/
def numsFuel : Nat → List Char → List (List Char)
  | 0, _ => []
  | _ + 1, [] => []
  | fuel + 1, c :: cs =>
    match matchNumAt (c :: cs) with
    | some (tok, rest) => tok :: numsFuel fuel rest
    | none => numsFuel fuel cs

theorem numsFuel_congr (f1 : Nat) : ∀ (f2 : Nat) (s : List Char),
    s.length ≤ f1 → s.length ≤ f2 → numsFuel f1 s = numsFuel f2 s := by
  induction f1 with
  | zero =>
    intro f2 s h1 _
    have : s = [] := List.eq_nil_of_length_eq_zero (Nat.le_zero.mp h1)
    subst this
    cases f2 <;> rfl
  | succ f1 ih =>
    intro f2 s h1 h2
    cases s with
    | nil => cases f2 <;> rfl
    | cons c cs =>
      cases f2 with
      | zero => simp at h2
      | succ f2 =>
        rw [numsFuel, numsFuel]
        cases hm : matchNumAt (c :: cs) with
        | none =>
          simp only [List.length_cons] at h1 h2
          exact ih f2 cs (by omega) (by omega)
        | some tr =>
          rcases tr with ⟨tok, rest⟩
          rcases matchNumAt_shrinks _ _ _ hm with ⟨hne, hle⟩
          have htok : 1 ≤ tok.length := by
            cases tok with
            | nil => exact absurd rfl hne
            | cons _ _ => simp
          dsimp only
          simp only [List.length_cons] at h1 h2 hle
          rw [ih f2 rest (by omega) (by omega)]

/-- Model of `NUM_RE.finditer`: all non-overlapping matches, left to right. -/
def numFinditer (s : List Char) : List (List Char) := numsFuel s.length s

/-! `utils.py` -/

/-- Model of `MAX_USD_RATE = 0.35` (`parsers.py`). -/
def MAX_USD_RATE : ℚ := mkRat 35 100

/-- Model of `utils.parse_percent`: percent text (or a bare number) to a fraction.
```python
def parse_percent(raw: str) -> float:
    s = (raw or "").strip()
    if not s: return 0.0
    m = PCT_RE.search(s)
    if m:
        v = m.group("num").replace(",", ".")
        try: return float(v) / 100.0
        except ValueError: return 0.0
    try: v = float(s.replace(",", "."))
    except ValueError: return 0.0
    return v / 100.0 if v > 1.0 else v
``` -/
def parse_percent (raw : String) : ℚ :=
  let s := pyStrip raw
  if s = "" then 0
  else
    match pctSearch s.data with
    | some m =>
      match pyFloat (commaToDot m.2) with
      | some v => div100 v
      | none => 0
    | none =>
      match pyFloat (commaToDot s.data) with
      | some v => if 1 < v then div100 v else v
      | none => 0

/-- Model of `urlparse(url).netloc`, for absolute URLs: the text between the
`//` (optionally preceded by a scheme and `:`) and the next `/`, `?`
or `#`; empty when the URL has no `//`. -/
def netloc_of (url : String) : String :=
  let cs := url.data
  let rest :=
    if listHasPre "//".data cs then cs.drop 2
    else
      -- drop a leading "scheme:" then require "//"
      let afterColon := cs.dropWhile fun c => !(c == ':' || c == '/' || c == '?' || c == '#')
      match afterColon with
      | ':' :: '/' :: '/' :: r => r
      | _ => []
  String.mk (rest.takeWhile fun c => !(c == '/' || c == '?' || c == '#'))

/-- Model of `utils.domain_of`:
```python
def domain_of(url: str) -> str:
    return urlparse(url).netloc.lower().lstrip("www.")
```
`str.lstrip("www.")` removes every leading character belonging to the
character set `{'w', '.'}`. -/
def domain_of (url : String) : String :=
  String.mk ((pyLower (netloc_of url)).data.dropWhile fun c => c == 'w' || c == '.')

/-! `parsers.py`: USD context, noise, normalization -/

/-- Model of `USD_POS` (`parsers.py`). -/
def USD_POS : List String :=
  ["usd", "us dollar", "dollar", "aqsh dollar", "aqsh doll", "$", "доллар", "долл"]

/-- Model of `USD_NEG` (`parsers.py`). -/
def USD_NEG : List String := ["uzs", "so\x27m", "som", "сум", "sum", "сўм"]

/-- Model of `DEPOSIT_LINK_HINTS` (`parsers.py`). -/
def DEPOSIT_LINK_HINTS : List String :=
  ["deposit", "deposits", "omonat", "omonatlar", "vklad", "vklady", "депозит", "вклад",
   "savings", "saving", "term-deposit", "time-deposit"]

/-- Model of `RATE_HINTS` (`parsers.py`). -/
def RATE_HINTS : List String :=
  ["rate", "annual", "stavka", "foiz", "процент", "yillik", "годовых", "%"]

/-- Literal alternatives of `NOISE_RE` (case-insensitive). -/
def NOISE_ALTS : List String :=
  ["\x7b", "\x7d", "@font-face", "/*", "*/", "px", "rem", "vh", "vw", "var(", "normalize.css"]

/-- Helper for `pySplit`: `cur` is the reversed current word. -/
def pySplitAux : List Char → List Char → List String
  | [], cur => if cur.isEmpty then [] else [String.mk cur.reverse]
  | c :: cs, cur =>
    if c.isWhitespace then
      if cur.isEmpty then pySplitAux cs [] else String.mk cur.reverse :: pySplitAux cs []
    else pySplitAux cs (c :: cur)

/-- Python `s.split()`: words separated by whitespace runs. -/
def pySplit (s : List Char) : List String := pySplitAux s []

/-- Model of `_norm`: `" ".join((s or "").split())`. -/
def _norm (s : String) : String := joinSep " " (pySplit s.data)

/-- Model of `_is_noise`:
```python
t = _norm(s)
if len(t) < 2: return True
return bool(NOISE_RE.search(t))
``` -/
def _is_noise (s : String) : Bool :=
  let t := _norm s
  if t.length < 2 then true
  else NOISE_ALTS.any fun a => strHas (pyLower t) a

/-- Model of `_is_usd_context`:
```python
t = (text or "").lower()
if any(x in t for x in USD_NEG) and not any(x in t for x in USD_POS): return False
return any(x in t for x in USD_POS)
``` -/
def _is_usd_context (text : String) : Bool :=
  let t := pyLower text
  if (USD_NEG.any fun x => strHas t x) && !(USD_POS.any fun x => strHas t x) then false
  else USD_POS.any fun x => strHas t x

/-- The `for raw in nums[:4]` loop of `_extract_rate_from_text`: the
first bare number whose converted fraction is accepted. -/
def firstOkRate : List (List Char) → Option ℚ
  | [] => none
  | raw :: rest =>
    let rate := parse_percent (String.mk raw)
    if 0 < rate ∧ rate ≤ MAX_USD_RATE then some rate else firstOkRate rest

/-- Model of `_extract_rate_from_text`:
```python
t = _norm(text)
if not t: return None
m = PCT_RE.search(t)
if m:
    rate = parse_percent(m.group(0))
    if 0.0 < rate <= MAX_USD_RATE: return rate
nums = [x.group("num") for x in NUM_RE.finditer(t)]
if not nums: return None
for raw in nums[:4]:
    rate = parse_percent(raw)
    if 0.0 < rate <= MAX_USD_RATE: return rate
return None
``` -/
def _extract_rate_from_text (text : String) : Option ℚ :=
  let t := _norm text
  if t = "" then none
  else
    let viaPct : Option ℚ :=
      match pctSearch t.data with
      | some m =>
        let rate := parse_percent (String.mk m.1)
        if 0 < rate ∧ rate ≤ MAX_USD_RATE then some rate else none
      | none => none
    match viaPct with
    | some r => some r
    | none =>
      let nums := numFinditer t.data
      if nums.isEmpty then none
      else firstOkRate (nums.take 4)

/-! `models.py` -/

/-- Model of `models.Deposit` (frozen dataclass). -/
structure Deposit where
  bank : String
  site : String
  name : String
  rate : ℚ
  currency : String
  url : String
deriving DecidableEq, Repr

/-- Model of `models.SiteStatus` (frozen dataclass). -/
structure SiteStatus where
  input_url : String
  domain : String
  http_status : Option Int
  signals : String
  result : String
  note : String
  rows_found : Nat
deriving DecidableEq, Repr

/-! `parsers.py`: page-level USD pinning -/

/-- The query part of a URL: after the first `?`, before any `#`. -/
def url_query (url : String) : String :=
  let afterQ :=
    match url.data.dropWhile (fun c => !(c == '?')) with
    | '?' :: r => r
    | _ => []
  String.mk (afterQ.takeWhile fun c => !(c == '#'))

/-- Split a character list on a separator character. -/
def splitOnChar (sep : Char) (s : List Char) : List (List Char) :=
  match s with
  | [] => [[]]
  | c :: cs =>
    let rest := splitOnChar sep cs
    if c == sep then [] :: rest
    else
      match rest with
      | [] => [[c]]
      | w :: ws => (c :: w) :: ws

/-- Model of `parse_qs(urlparse(url).query)` as a list of `(key, value)` pairs:
`&`-separated `k=v` segments; segments without `=` or with an empty
value are dropped (`keep_blank_values=False`). -/
def qs_pairs (url : String) : List (String × String) :=
  (splitOnChar '&' (url_query url).data).filterMap fun seg =>
    if seg.contains '=' then
      let k := seg.takeWhile fun c => !(c == '=')
      let v := seg.drop (k.length + 1)
      if v.isEmpty then none else some (String.mk k, String.mk v)
    else none

/-- Model of `_page_forced_usd`:
```python
u = url.lower()
if "currency=usd" in u or "valyuta=usd" in u or "usd" in u: return True
q = parse_qs(urlparse(url).query)
for k, v in q.items():
    if k.lower() in ("currency", "valyuta") and any(str(x).lower() == "usd" for x in v):
        return True
t = (soup_text or "").lower()
if " usd " in f" {t} " and not any(x in t for x in USD_NEG): return True
return False
``` -/
def _page_forced_usd (url : String) (soup_text : String) : Bool :=
  let u := pyLower url
  if strHas u "currency=usd" || strHas u "valyuta=usd" || strHas u "usd" then true
  else if (qs_pairs url).any
      (fun kv => (pyLower kv.1 = "currency" || pyLower kv.1 = "valyuta") && pyLower kv.2 = "usd")
    then true
  else
    let t := pyLower soup_text
    if strHas (" " ++ t ++ " ") " usd " && !(USD_NEG.any fun x => strHas t x) then true
    else false

/-! `parsers.py`: extraction strategies

A BeautifulSoup document is modelled by its extracted text content.
A table row carries its cell texts (`get_text` of each `td`/`th`) and
the text `_pick_name_from_block` would return for the row element; the
row's own `get_text(" ", strip=True)` is the space-join of the cells. -/

/-- One `<tr>`: cell texts plus the `_pick_name_from_block` result. -/
structure TRow where
  cells : List String
  blockName : String
deriving Repr, Inhabited

/-- One `<table>`: its rows. -/
structure HtmlTable where
  rows : List TRow
deriving Repr

/-- One generic block element (`tr`/`article`/`li`/`section`/`div`):
its `get_text(" ", strip=True)` and its `_pick_name_from_block` result. -/
structure Block where
  text : String
  pickName : String
deriving Repr

/-- The body of `_extract_from_tables` for one data row `tr`. -/
def tableRowDeposit (url bank : String) (forced_usd : Bool)
    (cur_idx rate_idx name_idx : Option Nat) (tr : TRow) : Option Deposit :=
  let cells := tr.cells
  if cells.isEmpty then none
  else
    let row_text := _norm (joinSep " " cells)
    if _is_noise row_text then none
    else
      let cur_text :=
        match cur_idx with
        | some i => if h : i < cells.length then _norm (cells.get ⟨i, h⟩) else ""
        | none => ""
      let row_usd := forced_usd || _is_usd_context row_text || _is_usd_context cur_text
      if !row_usd then none
      else if (USD_NEG.any fun x => strHas (pyLower row_text) x)
          && !(USD_POS.any fun x => strHas (pyLower row_text) x) then none
      else
        let rate_text :=
          match rate_idx with
          | some i => if h : i < cells.length then _norm (cells.get ⟨i, h⟩) else row_text
          | none => row_text
        match _extract_rate_from_text rate_text with
        | none => none
        | some rate =>
          let name0 :=
            match name_idx with
            | some i => if h : i < cells.length then _norm (cells.get ⟨i, h⟩) else ""
            | none => ""
          let name := if name0 = "" then tr.blockName else name0
          if name = "" || _is_noise name then none
          else some ⟨bank, domain_of url, name, rate, "USD", url⟩

/-- Header-to-index resolution of `_extract_from_tables`: the first
header matching each keyword family. -/
def tableHeaderIdx (headers : List String) : Option Nat × Option Nat × Option Nat :=
  let cur := headers.findIdx? fun h =>
    strHas h "currency" || strHas h "валюта" || strHas h "valyuta" || strHas h "usd"
  let rate := headers.findIdx? fun h => RATE_HINTS.any fun k => strHas h k
  let name := headers.findIdx? fun h =>
    strHas h "deposit" || strHas h "вклад" || strHas h "депозит" || strHas h "omonat"
  (cur, rate, name)

/-- Model of `_extract_from_tables` over the tables of a page. -/
def _extract_from_tables (tables : List HtmlTable) (url bank : String)
    (forced_usd : Bool) : List Deposit :=
  tables.flatMap fun table =>
    if table.rows.length < 2 then []
    else
      let headers := (table.rows.headI.cells).map fun x => pyLower (_norm x)
      let idx := tableHeaderIdx headers
      (table.rows.tail).filterMap
        (tableRowDeposit url bank forced_usd idx.1 idx.2.1 idx.2.2)

/-- The body of `_extract_from_blocks` for one candidate block. -/
def blockDeposit (url bank : String) (forced_usd : Bool) (block : Block) :
    Option Deposit :=
  let bt := _norm block.text
  if bt = "" || _is_noise bt then none
  else if !(bt.data.any Char.isDigit) then none
  else
    let block_has_rate_hint := RATE_HINTS.any fun k => strHas (pyLower bt) k
    let block_has_percent := strHas bt "%"
    if !(block_has_percent || block_has_rate_hint) then none
    else if !(forced_usd || _is_usd_context bt) then none
    else if (USD_NEG.any fun x => strHas (pyLower bt) x)
        && !(USD_POS.any fun x => strHas (pyLower bt) x) then none
    else
      match _extract_rate_from_text bt with
      | none => none
      | some rate =>
        let name := block.pickName
        if name = "" then none
        else if _is_noise name then none
        else if ["cookie", "privacy", "policy", "search", "subscribe"].any
            (fun x => strHas (pyLower name) x) then none
        else some ⟨bank, domain_of url, name, rate, "USD", url⟩

/-- Model of `_extract_from_blocks` over the candidate blocks of a page. -/
def _extract_from_blocks (blocks : List Block) (url bank : String)
    (forced_usd : Bool) : List Deposit :=
  blocks.filterMap (blockDeposit url bank forced_usd)

/-! `parsers.py`: JSON-endpoint strategy (`_walk_json`) -/

/-- A parsed JSON value.  Numbers carry their `str()` rendering (the
program only ever uses `str(value)` on them); Python `bool` is a
subclass of `int`, so it counts as a scalar with rendering
`True`/`False`. -/
inductive Json where
  | str (s : String)
  | numLit (s : String)
  | boolLit (b : Bool)
  | null
  | arr (items : List Json)
  | obj (fields : List (String × Json))
deriving Repr

/-- Model of `str(v)` for values passing `isinstance(v, (str, int, float))`. -/
def jsonScalarStr : Json → Option String
  | .str s => some s
  | .numLit s => some s
  | .boolLit b => some (if b then "True" else "False")
  | _ => none

/-- Dict lookup `obj[k]` (first matching field). -/
def jsonGet (fields : List (String × Json)) (k : String) : Option Json :=
  (fields.find? fun f => f.1 == k).map (·.2)

/-- The first key of `ks` present in the dict with a string value,
with that value (`for k in (...): if k in obj and isinstance(obj[k], str)`). -/
def firstStrField (fields : List (String × Json)) : List String → Option String
  | [] => none
  | k :: ks =>
    match jsonGet fields k with
    | some (.str s) => some s
    | _ => firstStrField fields ks

/-- The first key of `ks` present in the dict with a scalar value,
rendered with `str` (`isinstance(obj[k], (str, int, float))`). -/
def firstScalarField (fields : List (String × Json)) : List String → Option String
  | [] => none
  | k :: ks =>
    match (jsonGet fields k).bind jsonScalarStr with
    | some s => some s
    | none => firstScalarField fields ks

/-- The per-dict candidate of `_walk_json`:
```python
t = " ".join(_norm(str(v)) for v in obj.values() if isinstance(v, (str, int, float)))
lt = t.lower()
currency = ""  # first str-valued key among ("currency", "valyuta", "валюта"), upper-cased
if (currency == "USD") or (_is_usd_context(t) and "usd" in lt):
    rate_raw = ""  # first scalar-valued key among ("percent", "rate", "stavka", "foiz")
    rate = _extract_rate_from_text(rate_raw or t)
    if rate is not None:
        name = ""  # first str-valued key among ("name", "title", "deposit", "product", "caption")
        if not name: name = bank
        out.append(Deposit(bank, domain_of(url), name[:120], rate, "USD", url))
``` -/
def objDeposit (url bank : String) (fields : List (String × Json)) : Option Deposit :=
  let t := joinSep " "
    ((fields.filterMap fun f => jsonScalarStr f.2).map _norm)
  let lt := pyLower t
  let currency :=
    match firstStrField fields ["currency", "valyuta", "валюта"] with
    | some s => pyUpper (pyStrip s)
    | none => ""
  if currency = "USD" || (_is_usd_context t && strHas lt "usd") then
    let rate_raw := (firstScalarField fields ["percent", "rate", "stavka", "foiz"]).getD ""
    match _extract_rate_from_text (if rate_raw = "" then t else rate_raw) with
    | none => none
    | some rate =>
      let name0 := ((firstStrField fields ["name", "title", "deposit", "product", "caption"]).map _norm).getD ""
      let name := if name0 = "" then bank else name0
      some ⟨bank, domain_of url, pyTake name 120, rate, "USD", url⟩
  else none

mutual

/-- Model of `_walk_json`: recursive walk emitting one candidate per matching
dict, then recursing into all values. -/
def _walk_json (url bank : String) : Json → List Deposit
  | .obj fields =>
    (match objDeposit url bank fields with
     | some d => [d]
     | none => []) ++ walkJsonFields url bank fields
  | .arr items => walkJsonList url bank items
  | _ => []

/-- Walk of a JSON array's items. -/
def walkJsonList (url bank : String) : List Json → List Deposit
  | [] => []
  | j :: rest => _walk_json url bank j ++ walkJsonList url bank rest

/-- Walk of a dict's values. -/
def walkJsonFields (url bank : String) : List (String × Json) → List Deposit
  | [] => []
  | f :: rest => _walk_json url bank f.2 ++ walkJsonFields url bank rest

end

/-! `parsers.py`: deduplication and the xb.uz structured strategy -/

/-- The deduplication key of `_dedup`: `(d.site, d.name.strip().lower(), d.rate)`. -/
def dedupKey (d : Deposit) : String × String × ℚ :=
  (d.site, pyLower (pyStrip d.name), d.rate)

/-- The `uniq.setdefault` loop of `_dedup`: keep the first record seen
for each key, in first-occurrence order. -/
def dedupGo (seen : List (String × String × ℚ)) : List Deposit → List Deposit
  | [] => []
  | d :: rest =>
    if dedupKey d ∈ seen then dedupGo seen rest
    else d :: dedupGo (dedupKey d :: seen) rest

/-- Model of `_dedup`:
```python
uniq: dict[tuple[str, str, float], Deposit] = {}
for d in items:
    uniq.setdefault((d.site, d.name.strip().lower(), d.rate), d)
return list(uniq.values())
``` -/
def _dedup (items : List Deposit) : List Deposit := dedupGo [] items

/-- One element of the xb.uz open-data JSON array; the four fields
read by `_parse_xb_open_data` via `item.get(key, "")`:
`"Omonat nomi"`, `"Yillik foiz"`, `"Boshlang'ich badal miqdori"`,
`"Boshqa shartlar"`. -/
structure XbItem where
  omonatNomi : String
  yillikFoiz : String
  boshlangichBadal : String
  boshqaShartlar : String
deriving Repr

/-- The per-item filters of `_parse_xb_open_data`'s loop: `(name, rate)`
when the item passes (`name` non-empty, blob in USD context, rate in
`[0, MAX_USD_RATE]` — note the non-strict lower bound in the source). -/
def xbItemAccept (item : XbItem) : Option (String × ℚ) :=
  let name := pyStrip item.omonatNomi
  let rate_raw := pyStrip item.yillikFoiz
  let initial := pyStrip item.boshlangichBadal
  let other := pyStrip item.boshqaShartlar
  let blob := joinSep " " [name, rate_raw, initial, other]
  if name = "" || !(_is_usd_context blob) then none
  else
    let rate := parse_percent rate_raw
    if ¬ (0 ≤ rate ∧ rate ≤ MAX_USD_RATE) then none
    else some (name, rate)

/-- The `out.setdefault(name.lower(), ...)` loop of `_parse_xb_open_data`. -/
def xbGo (source_url : String) (seen : List String) : List XbItem → List Deposit
  | [] => []
  | item :: rest =>
    match xbItemAccept item with
    | none => xbGo source_url seen rest
    | some nr =>
      if pyLower nr.1 ∈ seen then xbGo source_url seen rest
      else ⟨"Xalq banki", "xb.uz", nr.1, nr.2, "USD", source_url⟩ ::
        xbGo source_url (pyLower nr.1 :: seen) rest

/-- Model of `_parse_xb_open_data`, over the already-fetched JSON array:
```python
for item in data:
    name = str(item.get("Omonat nomi", "")).strip()
    rate_raw = str(item.get("Yillik foiz", "")).strip()
    initial = str(item.get("Boshlang'ich badal miqdori", "")).strip()
    other = str(item.get("Boshqa shartlar", "")).strip()
    blob = " ".join([name, rate_raw, initial, other])
    if not name or not _is_usd_context(blob): continue
    rate = parse_percent(rate_raw)
    if not (0.0 <= rate <= MAX_USD_RATE): continue
    out.setdefault(name.lower(), Deposit("Xalq banki", "xb.uz", name, rate, "USD", source_url))
return list(out.values())
``` -/
def _parse_xb_open_data (data : List XbItem) (source_url : String) : List Deposit :=
  xbGo source_url [] data

/-- Model of `parse_url` routing: `domain_of(url).endswith("xb.uz")` selects the
structured open-data strategy, everything else the universal crawl. -/
inductive Strategy where
  | xbOpenData
  | universal
deriving DecidableEq, Repr

/-- The dispatch decision of `parse_url`:
```python
d = domain_of(url)
if d.endswith("xb.uz"): return _parse_xb_open_data(session, url)
return _parse_universal(session, url)
``` -/
def parse_url_route (url : String) : Strategy :=
  if strEndsWith (domain_of url) "xb.uz" then .xbOpenData else .universal

/-! `parsers.py`: link collection and the universal crawl -/

/-- Model of `_same_domain`. -/
def _same_domain (a b : String) : Bool := domain_of a == domain_of b

/-- An `<a href=...>` anchor, modelled by its resolved absolute URL
(`urljoin(base_url, href.strip())`, with empty hrefs pre-dropped) and
its `_norm`-alized, lower-cased anchor text. -/
structure Anchor where
  url : String
  text : String
deriving Repr

/-- The filter applied by `_collect_links` to one candidate link. -/
def linkWanted (u txt : String) : Bool :=
  let lu := pyLower u
  if DEPOSIT_LINK_HINTS.any (fun h => strHas lu h) ||
     DEPOSIT_LINK_HINTS.any (fun h => strHas txt h) then true
  else if strHas lu "usd" || strHas lu "currency=usd" || strHas lu "valyuta=usd"
       || strHas lu "$" then true
  else false

/-- The loop of `_collect_links`: `seen` deduplicates candidate URLs,
`out` accumulates accepted links, and the loop breaks as soon as
`len(out) >= limit` at the end of an iteration. -/
def clGo (limit : Nat) (base : String) :
    List Anchor → List String → List String → List String
  | [], _, out => out
  | a :: rest, seen, out =>
    if !(strStarts a.url "http://" || strStarts a.url "https://") then
      (if limit ≤ out.length then out else clGo limit base rest seen out)
    else if !(_same_domain base a.url) then
      (if limit ≤ out.length then out else clGo limit base rest seen out)
    else if a.url ∈ seen then
      (if limit ≤ out.length then out else clGo limit base rest seen out)
    else
      let seen' := a.url :: seen
      let out' := if linkWanted a.url a.text then out ++ [a.url] else out
      if limit ≤ out'.length then out' else clGo limit base rest seen' out'

/-- Model of `_collect_links(base_url, soup, limit)` over the page's anchors. -/
def _collect_links (base_url : String) (anchors : List Anchor) (limit : Nat) :
    List String :=
  clGo limit base_url anchors [] []

/-- One fetched page, modelled by its extracted content: its anchors,
tables, generic blocks, the `_best_bank_name` result, the normalized
page text (`soup.get_text`), and the JSON documents that
`_extract_from_json_endpoints` would successfully fetch and parse from
it (as `(endpoint_url, document)` pairs). -/
structure PageData where
  anchors : List Anchor
  tables : List HtmlTable
  blocks : List Block
  bank : String
  pageText : String
  jsonDocs : List (String × Json)
deriving Repr

/-- Per-page extraction of `_parse_universal`: tables, then blocks, and
the JSON-endpoint fallback only when the first two found nothing. -/
def pageDeposits (u : String) (p : PageData) : List Deposit :=
  let forced_usd := _page_forced_usd u p.pageText
  let deps := _extract_from_tables p.tables u p.bank forced_usd ++
    _extract_from_blocks p.blocks u p.bank forced_usd
  if deps.isEmpty then
    p.jsonDocs.flatMap fun jd => _walk_json jd.1 p.bank jd.2
  else deps

/-- The frontier update of `_parse_universal`:
```python
if depth < 1:
    for link in _collect_links(u, soup, limit=200):
        if link not in visited: q.append((link, depth + 1))
``` -/
def next_frontier (depth : Nat) (rest : List (String × Nat)) (links : List String)
    (visited : List String) : List (String × Nat) :=
  if depth < 1 then
    rest ++ (links.filter fun l => !(visited.contains l)).map fun l => (l, depth + 1)
  else rest

/-- The `while q and len(visited) < 20` loop of `_parse_universal`.
The network is `web : String → PageData`; returns the visited list and
the accumulated (pre-dedup) deposits. -/
def crawlSteps (web : String → PageData) (q : List (String × Nat))
    (visited : List String) (acc : List Deposit) : List String × List Deposit :=
  if 20 ≤ visited.length then (visited, acc)
  else
    match q with
    | [] => (visited, acc)
    | (u, depth) :: rest =>
      if u ∈ visited then crawlSteps web rest visited acc
      else
        let visited' := visited ++ [u]
        let p := web u
        let deps := pageDeposits u p
        let q' := next_frontier depth rest (_collect_links u p.anchors 200) visited'
        crawlSteps web q' visited' (acc ++ deps)
termination_by (20 - visited.length, q.length)
decreasing_by
  · apply Prod.Lex.right
    simp only [List.length_cons]
    omega
  · apply Prod.Lex.left
    simp only [List.length_append, List.length_cons]
    omega

/-- Model of `_parse_universal`: BFS from the root URL at depth 0, then `_dedup`. -/
def _parse_universal (web : String → PageData) (url : String) : List Deposit :=
  _dedup (crawlSteps web [(url, 0)] [] []).2

/-! `http.py`: JS-empty heuristic -/

/-- Match of one `JS_SHELL_RE` alternative
`<div[^>]+id=['"]NAME['"][^>]*>` starting right after a `<div`: at
least one non-`>` character, then `id=`, a quote, `NAME`, a quote, then
some non-`>` characters and a `>` (the trailing `[^>]*>` succeeds
exactly when a later `>` exists). -/
def shellIdAt (s : List Char) : Bool :=
  (listHasPre "id=".data s) &&
    (match s.drop 3 with
     | q1 :: r =>
       (q1.toNat == 39 || q1 == '"') &&
         ((listHasPre "app".data r &&
            (match r.drop 3 with
             | q2 :: r2 => (q2.toNat == 39 || q2 == '"') && r2.contains '>'
             | [] => false)) ||
          (listHasPre "root".data r &&
            (match r.drop 4 with
             | q2 :: r2 => (q2.toNat == 39 || q2 == '"') && r2.contains '>'
             | [] => false)))
     | [] => false)

/-- After `<div`, scan over `[^>]+` trying `shellIdAt` at every
position that leaves at least one consumed character before `id=`. -/
def afterDivLoop : List Char → Bool
  | [] => false
  | c :: rest =>
    if c == '>' then false
    else shellIdAt rest || afterDivLoop rest

/-- Model of `JS_SHELL_RE.search` (case-insensitive; caller lower-cases). -/
def shellSearch : List Char → Bool
  | [] => false
  | c :: cs =>
    (listHasPre "<div".data (c :: cs) && afterDivLoop ((c :: cs).drop 4)) ||
      shellSearch cs

/-- Model of `http.looks_js_empty`:
```python
t = (html or "").strip()
if len(t) < 1500: return True
if JS_SHELL_RE.search(t) and ("%" not in t) and ("usd" not in t.lower()):
    return True
return False
``` -/
def looks_js_empty (html : String) : Bool :=
  let t := pyStrip html
  if t.length < 1500 then true
  else if shellSearch (pyLower t).data && !(strHas t "%") && !(strHas (pyLower t) "usd") then
    true
  else false

/-! `cli.py`: hard-block decision, outcome classification, run loop -/

/-- Model of `USD_TOKENS` (`cli.py`). -/
def USD_TOKENS : List String := ["usd", "$", "dollar", "aqsh"]

/-- Model of `cli._simple_has_usd`. -/
def _simple_has_usd (html : String) : Bool :=
  USD_TOKENS.any fun t => strHas (pyLower html) t

/-- Model of `cli._simple_has_percent`. -/
def _simple_has_percent (html : String) : Bool := strHas html "%"

/-- Model of `cli._is_hard_block`:
```python
if status in (401, 403, 429, 503): return True
s = (signals or "").lower()
has_waf = ("cloudflare" in s) or ("sucuri" in s)
has_antibot = ("antibot_cookie" in s) or ("antibot_page" in s)
return has_waf and has_antibot
``` -/
def _is_hard_block (status : Option Int) (signals : String) : Bool :=
  if status = some 401 || status = some 403 || status = some 429 || status = some 503 then
    true
  else
    (strHas (pyLower signals) "cloudflare" || strHas (pyLower signals) "sucuri") &&
      (strHas (pyLower signals) "antibot_cookie" || strHas (pyLower signals) "antibot_page")

/-- The root fetch of one site in `main`: its status code, the signal
string from `diagnose_response`, and the probe HTML. -/
structure RootFetch where
  status : Int
  signals : String
  html : String
deriving Repr

/-- The per-site classification of `main` (the non-exception path):
result, note, `rows_found`, and whether the crawl (`parse_url`) was
attempted at all.  `deps` is the deduplicated record list returned by
`parse_url`. -/
def classify_site (root : RootFetch) (deps : List Deposit) :
    String × String × Nat × Bool :=
  if _is_hard_block (some root.status) root.signals then
    ("BLOCKED", (if root.signals = "" then "status=" ++ toString root.status else root.signals),
      0, false)
  else if 0 < deps.length then
    ("OK", "", deps.length, true)
  else if looks_js_empty root.html then
    ("JS_RENDER_REQUIRED", "HTML looks like a JS shell or too thin", 0, true)
  else if !(_simple_has_usd root.html) then
    ("NO_USD_MATCH", "No USD markers found", 0, true)
  else if !(_simple_has_percent root.html) then
    ("NO_RATES_FOUND", "No percent values found", 0, true)
  else
    ("NO_MATCHING_DEPOSITS", "USD markers exist but no valid deposit/rate pairs detected",
      0, true)

/-- What one iteration of `main`'s `for url in urls` loop did inside its
`try`: either it ran to completion having appended one `SiteStatus`
(carrying status, signals, result, note and row count), or an exception
escaped with the current status/signals and the exception's class name
and message. -/
inductive SiteRun where
  | done (status : Option Int) (signals result note : String) (rows : Nat)
  | raised (status : Option Int) (signals exName exMsg : String)
deriving Repr

/-- The single `SiteStatus` appended for a URL, in every branch of
`main`'s loop body (the two `except` branches both build
`SiteStatus(url, dom, http_status, signals, "ERROR", f"{name}: {msg[:180]}", 0)`). -/
def run_site (url : String) : SiteRun → SiteStatus
  | .done st sg res note rows => ⟨url, domain_of url, st, sg, res, note, rows⟩
  | .raised st sg n m => ⟨url, domain_of url, st, sg, "ERROR", n ++ ": " ++ pyTake m 180, 0⟩

/-- Model of `main`'s site loop: one `SiteStatus` per input URL, in order;
`step` models what processing each URL did. -/
def run_all (step : String → SiteRun) (urls : List String) : List SiteStatus :=
  urls.map fun u => run_site u (step u)

/-! # Theorems -/

/-! C10: `domain_of` uses `lstrip` character-set semantics -/

/-- C10.  The domain normalization `domain_of` — the one function used
for record `site` fields, `_same_domain` link filtering and `parse_url`
dispatch — lower-cases the URL's host and then removes every leading
character from the set `{'w', '.'}` (Python `str.lstrip("www.")`
semantics), not the literal prefix `"www."`; consequently a host such
as `web.bank.example` that begins with `w` but not with `www.` is
normalized to a string (`eb.bank.example`) different from the host. -/
theorem c10_domain_normalization_lstrip_set :
    (∀ url : String, domain_of url =
      String.mk ((pyLower (netloc_of url)).data.dropWhile fun c => c == 'w' || c == '.')) ∧
    domain_of "https://www.bank.example/deposits" = "bank.example" ∧
    domain_of "https://web.bank.example/deposits" = "eb.bank.example" ∧
    ("eb.bank.example" : String) ≠ "web.bank.example" ∧
    (∀ a b : String, _same_domain a b = (domain_of a == domain_of b)) ∧
    (∀ url : String, parse_url_route url =
      if strEndsWith (domain_of url) "xb.uz" then .xbOpenData else .universal) := by
  refine ⟨fun url => rfl, by decide, by decide, by decide, fun a b => rfl, fun url => rfl⟩

/-! C9: the dispatcher routes by domain suffix, not by one fixed domain -/

/-- C9 counterexample.  The claim says exactly the one fixed domain
`xb.uz` is routed to the structured-data strategy, but `parse_url`
tests `domain_of(url).endswith("xb.uz")`: the distinct domain `sxb.uz`
is also routed to it. -/
theorem c9_counterexample_sxb_routed_to_xb :
    parse_url_route "https://sxb.uz/deposits" = .xbOpenData ∧
    domain_of "https://sxb.uz/deposits" ≠ "xb.uz" := by
  exact ⟨by decide, by decide⟩

/-- Membership helper for `xbGo`: every produced record's lower-cased
name avoids the `seen` keys. -/
theorem xbGo_name_not_seen (src : String) (seen : List String) (data : List XbItem) :
    ∀ d ∈ xbGo src seen data, pyLower d.name ∉ seen := by
  induction data generalizing seen with
  | nil => simp [xbGo]
  | cons item rest ih =>
    intro d hd
    rw [xbGo] at hd
    cases hacc : xbItemAccept item with
    | none =>
      rw [hacc] at hd
      exact ih seen d hd
    | some nr =>
      rw [hacc] at hd
      dsimp only at hd
      by_cases hseen : pyLower nr.1 ∈ seen
      · rw [if_pos hseen] at hd
        exact ih seen d hd
      · rw [if_neg hseen] at hd
        rcases List.mem_cons.mp hd with h | h
        · subst h; simpa using hseen
        · intro hmem
          exact (ih _ d h) (List.mem_cons_of_mem _ hmem)

/-- Lemma: `xbGo` produces records with pairwise-distinct lower-cased names. -/
theorem xbGo_names_nodup (src : String) (seen : List String) (data : List XbItem) :
    ((xbGo src seen data).map fun d => pyLower d.name).Nodup := by
  induction data generalizing seen with
  | nil => simp [xbGo]
  | cons item rest ih =>
    rw [xbGo]
    cases hacc : xbItemAccept item with
    | none => exact ih seen
    | some nr =>
      dsimp only
      by_cases hseen : pyLower nr.1 ∈ seen
      · rw [if_pos hseen]
        exact ih seen
      · rw [if_neg hseen]
        refine List.nodup_cons.mpr ⟨?_, ih _⟩
        intro hmem
        rcases List.mem_map.mp hmem with ⟨d, hd, heq⟩
        have := xbGo_name_not_seen src _ rest d hd
        simp only [heq] at this
        exact this (List.mem_cons_self _ _)

/-- C9 amended.  The Site Dispatcher is a pure function of the input
URL's domain: every URL whose normalized domain *ends with* `xb.uz`
(`xb.uz` itself, its subdomains, but also unrelated domains such as
`sxb.uz`) is routed to the structured-data strategy, and every other
URL to the generic crawl; the structured strategy deduplicates by
lower-cased deposit name, first occurrence winning. -/
theorem c9_amended_dispatch_by_suffix :
    (∀ url : String, parse_url_route url = .xbOpenData ↔
      strEndsWith (domain_of url) "xb.uz" = true) ∧
    (∀ u v : String, domain_of u = domain_of v → parse_url_route u = parse_url_route v) ∧
    (∀ (data : List XbItem) (src : String),
      ((_parse_xb_open_data data src).map fun d => pyLower d.name).Nodup) := by
  refine ⟨fun url => ?_, fun u v h => ?_, fun data src => xbGo_names_nodup src [] data⟩
  · unfold parse_url_route
    split <;> simp_all
  · unfold parse_url_route
    rw [h]

/-- C9 amended, witness: the suffix criterion and name-nodup at
concrete inputs. -/
theorem c9_amended_witness :
    parse_url_route "https://www.xb.uz/deposits" = .xbOpenData ∧
    ((_parse_xb_open_data [⟨"Usd omonat", "7%", "", ""⟩, ⟨"usd omonat", "7%", "", ""⟩]
        "https://xb.uz/d").map fun d => pyLower d.name).Nodup := by
  constructor
  · exact (c9_amended_dispatch_by_suffix.1 "https://www.xb.uz/deposits").mpr (by decide)
  · exact c9_amended_dispatch_by_suffix.2.2 _ "https://xb.uz/d"

/-! C3: the hard-block decision -/

/-- C3.  `_is_hard_block` is true exactly when the status is one of
401/403/429/503, or the signal string contains a WAF signal
(`cloudflare` or `sucuri`) together with an anti-bot signal
(`antibot_cookie` or `antibot_page`); in particular status 403 alone is
a hard block, a `cloudflare` signal alone is not, and
`cloudflare` + `antibot_cookie` is. -/
theorem c3_hard_block_decision :
    (∀ (status : Option Int) (signals : String),
      _is_hard_block status signals = true ↔
        ((status = some 401 ∨ status = some 403 ∨ status = some 429 ∨ status = some 503) ∨
          ((strHas (pyLower signals) "cloudflare" = true ∨ strHas (pyLower signals) "sucuri" = true) ∧
           (strHas (pyLower signals) "antibot_cookie" = true ∨
            strHas (pyLower signals) "antibot_page" = true)))) ∧
    _is_hard_block (some 403) "" = true ∧
    _is_hard_block (some 200) "cloudflare" = false ∧
    _is_hard_block (some 200) "cloudflare,antibot_cookie" = true := by
  refine ⟨fun status signals => ?_, by decide, by decide, by decide⟩
  unfold _is_hard_block
  split
  · rename_i h
    simp only [Bool.or_eq_true, decide_eq_true_eq] at h
    simp only [true_iff]
    exact Or.inl (by tauto)
  · rename_i h
    simp only [Bool.or_eq_true, decide_eq_true_eq, not_or] at h
    simp only [Bool.and_eq_true, Bool.or_eq_true]
    constructor
    · intro hab
      exact Or.inr hab
    · rintro (hs | hab)
      · exact absurd hs (by tauto)
      · exact hab

/-! C7: deduplication -/

theorem dedupGo_idem (seen : List (String × String × ℚ)) (l : List Deposit) :
    dedupGo seen (dedupGo seen l) = dedupGo seen l := by
  induction l generalizing seen with
  | nil => simp [dedupGo]
  | cons d rest ih =>
    rw [dedupGo]
    by_cases h : dedupKey d ∈ seen
    · rw [if_pos h]
      exact ih seen
    · rw [if_neg h, dedupGo, if_neg h]
      congr 1
      exact ih _

theorem dedupGo_mem_keys (seen : List (String × String × ℚ)) (l : List Deposit)
    (k : String × String × ℚ) :
    k ∈ (dedupGo seen l).map dedupKey ↔ k ∉ seen ∧ k ∈ l.map dedupKey := by
  induction l generalizing seen with
  | nil => simp [dedupGo]
  | cons d rest ih =>
    rw [dedupGo]
    by_cases h : dedupKey d ∈ seen
    · rw [if_pos h, ih]
      simp only [List.map_cons, List.mem_cons]
      constructor
      · rintro ⟨hns, hm⟩
        exact ⟨hns, Or.inr hm⟩
      · rintro ⟨hns, (rfl | hm)⟩
        · exact absurd h hns
        · exact ⟨hns, hm⟩
    · rw [if_neg h]
      simp only [List.map_cons, List.mem_cons, ih]
      constructor
      · rintro (rfl | ⟨hns, hm⟩)
        · exact ⟨h, Or.inl rfl⟩
        · exact ⟨fun hk => hns (Or.inr hk), Or.inr hm⟩
      · rintro ⟨hns, (rfl | hm)⟩
        · exact Or.inl rfl
        · by_cases hkd : k = dedupKey d
          · exact Or.inl hkd
          · exact Or.inr ⟨by simp [List.mem_cons, hkd, hns], hm⟩

theorem dedupGo_keys_nodup (seen : List (String × String × ℚ)) (l : List Deposit) :
    ((dedupGo seen l).map dedupKey).Nodup := by
  induction l generalizing seen with
  | nil => simp [dedupGo]
  | cons d rest ih =>
    rw [dedupGo]
    by_cases h : dedupKey d ∈ seen
    · rw [if_pos h]
      exact ih seen
    · rw [if_neg h]
      simp only [List.map_cons]
      refine List.nodup_cons.mpr ⟨?_, ih _⟩
      intro hmem
      exact ((dedupGo_mem_keys _ _ _).mp hmem).1 (List.mem_cons_self _ _)

/-- C7 counterexample.  Two *distinct* records sharing a dedup key:
first-seen wins, so the resulting record set depends on the input
order, refuting order-independence of the record set. -/
theorem c7_counterexample_order_dependent :
    _dedup [⟨"Bank One", "s.example", "Alpha", mkRat 1 10, "USD", "u1"⟩,
            ⟨"Bank Two", "s.example", "alpha ", mkRat 1 10, "USD", "u2"⟩] =
      [⟨"Bank One", "s.example", "Alpha", mkRat 1 10, "USD", "u1"⟩] ∧
    _dedup [⟨"Bank Two", "s.example", "alpha ", mkRat 1 10, "USD", "u2"⟩,
            ⟨"Bank One", "s.example", "Alpha", mkRat 1 10, "USD", "u1"⟩] =
      [⟨"Bank Two", "s.example", "alpha ", mkRat 1 10, "USD", "u2"⟩] ∧
    (⟨"Bank One", "s.example", "Alpha", mkRat 1 10, "USD", "u1"⟩ : Deposit) ≠
      ⟨"Bank Two", "s.example", "alpha ", mkRat 1 10, "USD", "u2"⟩ := by
  refine ⟨by decide, by decide, by decide⟩

/-- C7 amended.  Deduplication by `(site, lowercased-trimmed name,
rate)` keeping the first-seen record is idempotent, and the *key set* of
the result is order-independent (permuting the candidates permutes the
result keys); the record set itself is order-independent only up to the
choice of representative among distinct records sharing a key. -/
theorem c7_amended_dedup_idempotent_keys_order_free :
    (∀ l : List Deposit, _dedup (_dedup l) = _dedup l) ∧
    (∀ l₁ l₂ : List Deposit, l₁.Perm l₂ →
      ((_dedup l₁).map dedupKey).Perm ((_dedup l₂).map dedupKey)) := by
  refine ⟨fun l => dedupGo_idem [] l, fun l₁ l₂ hp => ?_⟩
  show ((dedupGo [] l₁).map dedupKey).Perm ((dedupGo [] l₂).map dedupKey)
  rw [List.perm_ext_iff_of_nodup (dedupGo_keys_nodup [] l₁) (dedupGo_keys_nodup [] l₂)]
  intro k
  rw [dedupGo_mem_keys, dedupGo_mem_keys]
  exact and_congr_right fun _ => (hp.map dedupKey).mem_iff

/-- C7 amended, witness: idempotence and key-permutation at a concrete
pair of permuted candidate lists. -/
theorem c7_amended_witness :
    _dedup (_dedup [⟨"B", "s", "A", mkRat 1 10, "USD", "u"⟩, ⟨"B", "s", "C", mkRat 1 5, "USD", "u"⟩]) =
      _dedup [⟨"B", "s", "A", mkRat 1 10, "USD", "u"⟩, ⟨"B", "s", "C", mkRat 1 5, "USD", "u"⟩] ∧
    ((_dedup [⟨"B", "s", "A", mkRat 1 10, "USD", "u"⟩, ⟨"B", "s", "C", mkRat 1 5, "USD", "u"⟩]).map
        dedupKey).Perm
      ((_dedup [⟨"B", "s", "C", mkRat 1 5, "USD", "u"⟩, ⟨"B", "s", "A", mkRat 1 10, "USD", "u"⟩]).map
        dedupKey) :=
  ⟨c7_amended_dedup_idempotent_keys_order_free.1 _,
    c7_amended_dedup_idempotent_keys_order_free.2 _ _ (by decide)⟩

/-! C8: the forced-USD page flag -/

/-- The forced-USD criterion as the claim states it (for comparison
with the code): a `currency`/`valyuta` query parameter equal to `usd`,
or the page text containing standalone `" usd "` with no non-USD
currency marker. -/
def spec_forced_usd (url soup_text : String) : Bool :=
  (qs_pairs url).any
    (fun kv => (pyLower kv.1 = "currency" || pyLower kv.1 = "valyuta") && pyLower kv.2 = "usd")
  || (strHas (" " ++ pyLower soup_text ++ " ") " usd " &&
      !(USD_NEG.any fun x => strHas (pyLower soup_text) x))

/-- C8 counterexample.  The code returns `True` for any URL containing
the substring `usd` (`"usd" in u`, `parsers.py` line 67) even with no
currency query parameter (the URL has no query string at all) and no
USD mention in the page text, where the claim's criterion is false. -/
theorem c8_counterexample_usd_substring_url :
    _page_forced_usd "https://bank.example/usd-history" "" = true ∧
    spec_forced_usd "https://bank.example/usd-history" "" = false ∧
    url_query "https://bank.example/usd-history" = "" := by
  refine ⟨by decide, by decide, by decide⟩

/-- C8 amended.  `forced_usd` is true exactly when the lower-cased URL
contains `usd` as a substring *anywhere* (which subsumes the
`currency=usd` and `valyuta=usd` checks of the source), or a
`currency`/`valyuta` query parameter equals `usd`, or the page text
mentions `" usd "` as a standalone token with no contradicting non-USD
currency marker. -/
theorem c8_amended_forced_usd_characterization :
    ∀ url soup_text : String,
      _page_forced_usd url soup_text =
        (strHas (pyLower url) "usd" || spec_forced_usd url soup_text) := by
  intro url soup_text
  simp only [_page_forced_usd, spec_forced_usd]
  by_cases h3 : strHas (pyLower url) "usd" = true
  · have h1 : (strHas (pyLower url) "currency=usd" || strHas (pyLower url) "valyuta=usd" ||
        strHas (pyLower url) "usd") = true := by
      simp [h3]
    rw [if_pos h1]
    simp [h3]
  · have h1 : ¬ (strHas (pyLower url) "currency=usd" || strHas (pyLower url) "valyuta=usd" ||
        strHas (pyLower url) "usd") = true := by
      simp only [Bool.or_eq_true, not_or]
      refine ⟨⟨fun hc => ?_, fun hv => ?_⟩, h3⟩
      · exact h3 (listHasSub_trans (p := "usd".data) (by decide) hc)
      · exact h3 (listHasSub_trans (p := "usd".data) (by decide) hv)
    rw [if_neg h1]
    simp only [Bool.eq_false_iff.mpr h3, Bool.false_or]
    split
    · rename_i hq
      simp [hq]
    · rename_i hq
      simp only [Bool.eq_false_iff.mpr hq, Bool.false_or]
      split
      · rename_i ht
        simp [ht]
      · rename_i ht
        simp [Bool.eq_false_iff.mpr ht]

/-! C2 / C1: the Rate Normalizer accepts only `(0, MAX_USD_RATE]` -/

theorem firstOkRate_range : ∀ (l : List (List Char)) (r : ℚ),
    firstOkRate l = some r → 0 < r ∧ r ≤ MAX_USD_RATE := by
  intro l
  induction l with
  | nil => intro r h; simp [firstOkRate] at h
  | cons raw rest ih =>
    intro r h
    simp only [firstOkRate] at h
    split at h
    · rename_i hc
      injection h with h'
      exact h' ▸ hc
    · exact ih r h

/-- Any rate returned by `_extract_rate_from_text` lies in
`(0, MAX_USD_RATE]`: both the percent branch and the bare-number loop
gate their return on `0.0 < rate <= MAX_USD_RATE`. -/
theorem extract_rate_range (text : String) (r : ℚ)
    (h : _extract_rate_from_text text = some r) : 0 < r ∧ r ≤ MAX_USD_RATE := by
  simp only [_extract_rate_from_text] at h
  split at h
  · simp at h
  · split at h
    · rename_i r' heq
      split at heq
      · rename_i m
        split at heq
        · rename_i hc
          injection heq with heq'
          injection h with h'
          subst h'
          exact heq' ▸ hc
        · simp at heq
      · simp at heq
    · split at h
      · simp at h
      · exact firstOkRate_range _ _ h

/-- C2 counterexample.  In `_extract_rate_from_text "50% 7.5"` a
percent pattern *is* present (`50%`), its value `0.5` is rejected, and
the function still returns `0.075` from the bare-number scan — whereas
the claim's algorithm tries bare numbers only when no percent pattern
is present ("otherwise"), and yields no rate here. -/
theorem c2_counterexample_bare_scan_after_rejected_pct :
    pctSearch (_norm "50% 7.5").data = some ("50%".data, "50".data) ∧
    parse_percent "50%" = mkRat 1 2 ∧
    ¬ (mkRat 1 2 ≤ MAX_USD_RATE) ∧
    _extract_rate_from_text "50% 7.5" = some (mkRat 3 40) := by
  refine ⟨by decide, by decide, by decide, by decide⟩

/-- C2 amended.  The Rate Normalizer maps `"7.5%"`, `"7,5%"`, bare
`"7.5"` (a bare value `> 1` read as a percent) and bare `"0.075"` (a
bare value `≤ 1` read as a fraction) all to `0.075`, and yields no rate
for text with no acceptable value; a `<number>%` pattern is tried
first and its value returned when it lies in `(0, 0.35]`; if no percent
pattern is present *or its value is not accepted*, up to the first 4
bare numbers are tried in order and the first value whose converted
fraction lies in `(0, 0.35]` is returned. -/
theorem c2_amended_rate_normalizer :
    _extract_rate_from_text "7.5%" = some (mkRat 3 40) ∧
    _extract_rate_from_text "7,5%" = some (mkRat 3 40) ∧
    _extract_rate_from_text "7.5" = some (mkRat 3 40) ∧
    _extract_rate_from_text "0.075" = some (mkRat 3 40) ∧
    _extract_rate_from_text "no rates here" = none ∧
    (∀ (t : String) (m : List Char × List Char),
      pctSearch (_norm t).data = some m →
      0 < parse_percent (String.mk m.1) →
      parse_percent (String.mk m.1) ≤ MAX_USD_RATE →
      _extract_rate_from_text t = some (parse_percent (String.mk m.1))) ∧
    (∀ t : String, pctSearch (_norm t).data = none →
      _extract_rate_from_text t = firstOkRate ((numFinditer (_norm t).data).take 4)) ∧
    (∀ (t : String) (m : List Char × List Char),
      pctSearch (_norm t).data = some m →
      ¬ (0 < parse_percent (String.mk m.1) ∧ parse_percent (String.mk m.1) ≤ MAX_USD_RATE) →
      _extract_rate_from_text t = firstOkRate ((numFinditer (_norm t).data).take 4)) := by
  refine ⟨by decide, by decide, by decide, by decide, by decide, ?_, ?_, ?_⟩
  · intro t m hm h0 hle
    simp only [_extract_rate_from_text]
    split
    · rename_i ht
      rw [ht] at hm
      simp [pctSearch, show ("" : String).data = [] from rfl] at hm
    · rw [hm]
      dsimp only
      rw [if_pos (And.intro h0 hle)]
  · intro t hm
    simp only [_extract_rate_from_text]
    split
    · rename_i ht
      rw [ht]
      rw [show ("" : String).data = [] from rfl]
      simp [numFinditer, numsFuel, firstOkRate]
    · rw [hm]
      dsimp only
      split
      · rename_i hnil
        rw [List.isEmpty_iff.mp hnil]
        simp [firstOkRate]
      · rfl
  · intro t m hm hrej
    simp only [_extract_rate_from_text]
    split
    · rename_i ht
      rw [ht] at hm
      simp [pctSearch, show ("" : String).data = [] from rfl] at hm
    · rw [hm]
      dsimp only
      rw [if_neg hrej]
      dsimp only
      split
      · rename_i hnil
        rw [List.isEmpty_iff.mp hnil]
        simp [firstOkRate]
      · rfl

/-- C2 amended, witness: the percent-first rule at `"7.5%"` and the
no-percent rule at `"0.075"`, concretely. -/
theorem c2_amended_witness :
    _extract_rate_from_text "7.5%" = some (parse_percent (String.mk "7.5%".data)) ∧
    _extract_rate_from_text "0.075" =
      firstOkRate ((numFinditer (_norm "0.075").data).take 4) :=
  ⟨c2_amended_rate_normalizer.2.2.2.2.2.1 "7.5%" ("7.5%".data, "7.5".data)
      (by decide) (by decide) (by decide),
    c2_amended_rate_normalizer.2.2.2.2.2.2.1 "0.075" (by decide)⟩

/-! C1: record invariants of the four extraction strategies -/

theorem tableRowDeposit_ok (url bank : String) (f : Bool) (ci ri ni : Option Nat)
    (tr : TRow) (d : Deposit) (h : tableRowDeposit url bank f ci ri ni tr = some d) :
    d.currency = "USD" ∧ 0 < d.rate ∧ d.rate ≤ MAX_USD_RATE := by
  simp only [tableRowDeposit] at h
  split at h
  · simp at h
  · split at h
    · simp at h
    · split at h
      · simp at h
      · split at h
        · simp at h
        · split at h
          · simp at h
          · rename_i rate heq
            split at h
            · simp at h
              obtain ⟨-, rfl⟩ := h
              exact ⟨rfl, extract_rate_range _ _ heq⟩
            · simp at h
              obtain ⟨-, rfl⟩ := h
              exact ⟨rfl, extract_rate_range _ _ heq⟩

theorem table_strategy_ok (tables : List HtmlTable) (url bank : String) (f : Bool) :
    ∀ d ∈ _extract_from_tables tables url bank f,
      d.currency = "USD" ∧ 0 < d.rate ∧ d.rate ≤ MAX_USD_RATE := by
  intro d hd
  simp only [_extract_from_tables, List.mem_flatMap] at hd
  obtain ⟨table, _, hmem⟩ := hd
  split at hmem
  · simp at hmem
  · rcases List.mem_filterMap.mp hmem with ⟨tr, _, hsome⟩
    exact tableRowDeposit_ok _ _ _ _ _ _ _ _ hsome

theorem blockDeposit_ok (url bank : String) (f : Bool) (block : Block) (d : Deposit)
    (h : blockDeposit url bank f block = some d) :
    d.currency = "USD" ∧ 0 < d.rate ∧ d.rate ≤ MAX_USD_RATE := by
  simp only [blockDeposit] at h
  split at h
  · simp at h
  · split at h
    · simp at h
    · split at h
      · simp at h
      · split at h
        · simp at h
        · split at h
          · simp at h
          · split at h
            · simp at h
            · rename_i rate heq
              split at h
              · simp at h
              · split at h
                · simp at h
                · split at h
                  · simp at h
                  · injection h with h'
                    subst h'
                    exact ⟨rfl, extract_rate_range _ _ heq⟩

theorem block_strategy_ok (blocks : List Block) (url bank : String) (f : Bool) :
    ∀ d ∈ _extract_from_blocks blocks url bank f,
      d.currency = "USD" ∧ 0 < d.rate ∧ d.rate ≤ MAX_USD_RATE := by
  intro d hd
  rcases List.mem_filterMap.mp hd with ⟨block, _, hsome⟩
  exact blockDeposit_ok _ _ _ _ _ hsome

theorem objDeposit_ok (url bank : String) (fields : List (String × Json)) (d : Deposit)
    (h : objDeposit url bank fields = some d) :
    d.currency = "USD" ∧ 0 < d.rate ∧ d.rate ≤ MAX_USD_RATE := by
  simp only [objDeposit] at h
  split at h
  · split at h
    · simp at h
    · rename_i rate heq
      injection h with h'
      subst h'
      exact ⟨rfl, extract_rate_range _ _ heq⟩
  · simp at h

theorem walk_json_ok (url bank : String) (j : Json) :
    ∀ d ∈ _walk_json url bank j,
      d.currency = "USD" ∧ 0 < d.rate ∧ d.rate ≤ MAX_USD_RATE := by
  refine _walk_json.induct url bank
    (fun j => ∀ d ∈ _walk_json url bank j,
      d.currency = "USD" ∧ 0 < d.rate ∧ d.rate ≤ MAX_USD_RATE)
    (fun items => ∀ d ∈ walkJsonList url bank items,
      d.currency = "USD" ∧ 0 < d.rate ∧ d.rate ≤ MAX_USD_RATE)
    (fun fields => ∀ d ∈ walkJsonFields url bank fields,
      d.currency = "USD" ∧ 0 < d.rate ∧ d.rate ≤ MAX_USD_RATE)
    ?_ ?_ ?_ ?_ ?_ ?_ ?_ j
  · intro fields ih d hd
    rw [_walk_json] at hd
    rcases List.mem_append.mp hd with hown | hrec
    · split at hown
      · rename_i d' heq
        rcases List.mem_singleton.mp hown with rfl
        exact objDeposit_ok _ _ _ _ heq
      · simp at hown
    · exact ih d hrec
  · intro items ih d hd
    rw [_walk_json] at hd
    exact ih d hd
  · intro t h1 h2 d hd
    cases t with
    | obj fields => exact absurd rfl (h1 fields)
    | arr items => exact absurd rfl (h2 items)
    | str s => simp [_walk_json] at hd
    | numLit s => simp [_walk_json] at hd
    | boolLit b => simp [_walk_json] at hd
    | null => simp [_walk_json] at hd
  · intro d hd
    simp [walkJsonList] at hd
  · intro hj rest ih1 ih2 d hd
    rw [walkJsonList] at hd
    rcases List.mem_append.mp hd with h | h
    · exact ih1 d h
    · exact ih2 d h
  · intro d hd
    simp [walkJsonFields] at hd
  · intro fld rest ih1 ih2 d hd
    rw [walkJsonFields] at hd
    rcases List.mem_append.mp hd with h | h
    · exact ih1 d h
    · exact ih2 d h

theorem xbItemAccept_range (item : XbItem) (name : String) (rate : ℚ)
    (h : xbItemAccept item = some (name, rate)) : 0 ≤ rate ∧ rate ≤ MAX_USD_RATE := by
  simp only [xbItemAccept] at h
  split at h
  · simp at h
  · split at h
    · simp at h
    · rename_i hc
      injection h with h'
      rw [Prod.mk.injEq] at h'
      rcases h' with ⟨-, rfl⟩
      exact not_not.mp hc

theorem xb_strategy_range (data : List XbItem) (src : String) :
    ∀ d ∈ _parse_xb_open_data data src,
      d.currency = "USD" ∧ 0 ≤ d.rate ∧ d.rate ≤ MAX_USD_RATE := by
  show ∀ d ∈ xbGo src [] data, _
  generalize [] = seen
  induction data generalizing seen with
  | nil => simp [xbGo]
  | cons item rest ih =>
    intro d hd
    rw [xbGo] at hd
    cases hacc : xbItemAccept item with
    | none =>
      rw [hacc] at hd
      exact ih seen d hd
    | some nr =>
      rw [hacc] at hd
      dsimp only at hd
      by_cases hseen : pyLower nr.1 ∈ seen
      · rw [if_pos hseen] at hd
        exact ih seen d hd
      · rw [if_neg hseen] at hd
        rcases List.mem_cons.mp hd with rfl | h
        · exact ⟨rfl, xbItemAccept_range item nr.1 nr.2 (by rw [hacc])⟩
        · exact ih _ d h

/-- C1 counterexample.  The xb.uz structured-data strategy accepts a
rate of exactly `0` (its guard is `0.0 <= rate <= MAX_USD_RATE`,
`parsers.py` line 366): an item whose name mentions USD but whose
annual-rate text is empty yields `parse_percent("") = 0.0` and a
`DepositRecord` with `rate = 0`, refuting `0 < rate` for every
extraction path. -/
theorem c1_counterexample_xb_zero_rate :
    _parse_xb_open_data [⟨"Usd omonat", "", "", ""⟩] "https://xb.uz/open-data" =
      [⟨"Xalq banki", "xb.uz", "Usd omonat", 0, "USD", "https://xb.uz/open-data"⟩] ∧
    ¬ ((0 : ℚ) < 0) := by
  exact ⟨by decide, by decide⟩

/-- C1 amended.  Every `DepositRecord` produced by the table strategy,
the generic block strategy and the JSON-endpoint strategy has
`0 < rate ≤ 0.35` and `currency = "USD"`; records produced by the
xb.uz structured-data strategy have `currency = "USD"` and
`0 ≤ rate ≤ 0.35`, with `rate = 0` possible when the annual-rate text
is empty or unparsable. -/
theorem c1_amended_record_invariants :
    (∀ (tables : List HtmlTable) (url bank : String) (f : Bool),
      ∀ d ∈ _extract_from_tables tables url bank f,
        d.currency = "USD" ∧ 0 < d.rate ∧ d.rate ≤ MAX_USD_RATE) ∧
    (∀ (blocks : List Block) (url bank : String) (f : Bool),
      ∀ d ∈ _extract_from_blocks blocks url bank f,
        d.currency = "USD" ∧ 0 < d.rate ∧ d.rate ≤ MAX_USD_RATE) ∧
    (∀ (url bank : String) (j : Json),
      ∀ d ∈ _walk_json url bank j,
        d.currency = "USD" ∧ 0 < d.rate ∧ d.rate ≤ MAX_USD_RATE) ∧
    (∀ (data : List XbItem) (src : String),
      ∀ d ∈ _parse_xb_open_data data src,
        d.currency = "USD" ∧ 0 ≤ d.rate ∧ d.rate ≤ MAX_USD_RATE) :=
  ⟨table_strategy_ok, block_strategy_ok, walk_json_ok, xb_strategy_range⟩

/-- C1 amended, witness: concrete records from the block strategy and
the xb.uz strategy satisfy their respective invariants. -/
theorem c1_amended_witness :
    (⟨"B", "bank.example", "Omonat usd", mkRat 3 40, "USD", "https://bank.example/d"⟩ : Deposit) ∈
      _extract_from_blocks [⟨"Omonat usd 7.5% yillik", "Omonat usd"⟩]
        "https://bank.example/d" "B" false ∧
    ((⟨"B", "bank.example", "Omonat usd", mkRat 3 40, "USD", "https://bank.example/d"⟩ :
        Deposit).currency = "USD" ∧
      0 < mkRat 3 40 ∧ mkRat 3 40 ≤ MAX_USD_RATE) ∧
    ((⟨"Xalq banki", "xb.uz", "Usd omonat", 0, "USD", "u"⟩ : Deposit).currency = "USD" ∧
      (0 : ℚ) ≤ 0 ∧ (0 : ℚ) ≤ MAX_USD_RATE) := by
  refine ⟨by decide, ?_, ?_⟩
  · exact c1_amended_record_invariants.2.1 [⟨"Omonat usd 7.5% yillik", "Omonat usd"⟩]
      "https://bank.example/d" "B" false _ (by decide)
  · have := c1_amended_record_invariants.2.2.2 [⟨"Usd omonat", "", "", ""⟩] "u"
      ⟨"Xalq banki", "xb.uz", "Usd omonat", 0, "USD", "u"⟩ (by decide)
    exact this

/-! C4: ResultKind priority for a processed site -/

/-- C4.  For every processed input URL the site's result is selected in
priority order: `BLOCKED` on a hard-block diagnosis of the root fetch
(with `rowsFound = 0` and no crawl attempted), else `OK` with the
deduplicated record count, else — with zero records —
`JS_RENDER_REQUIRED` when the root page looks JS-empty, `NO_USD_MATCH`
when the root body has no USD token, `NO_RATES_FOUND` when it has USD
tokens but no `%`, and `NO_MATCHING_DEPOSITS` otherwise; a root fetch
returning status 503 is blocked with no crawl. -/
theorem c4_result_kind_priority :
    (∀ (root : RootFetch) (deps : List Deposit),
      (_is_hard_block (some root.status) root.signals = true →
        classify_site root deps =
          ("BLOCKED",
            (if root.signals = "" then "status=" ++ toString root.status else root.signals),
            0, false)) ∧
      (_is_hard_block (some root.status) root.signals = false → deps ≠ [] →
        classify_site root deps = ("OK", "", deps.length, true)) ∧
      (_is_hard_block (some root.status) root.signals = false → deps = [] →
        looks_js_empty root.html = true →
        classify_site root deps =
          ("JS_RENDER_REQUIRED", "HTML looks like a JS shell or too thin", 0, true)) ∧
      (_is_hard_block (some root.status) root.signals = false → deps = [] →
        looks_js_empty root.html = false → _simple_has_usd root.html = false →
        classify_site root deps = ("NO_USD_MATCH", "No USD markers found", 0, true)) ∧
      (_is_hard_block (some root.status) root.signals = false → deps = [] →
        looks_js_empty root.html = false → _simple_has_usd root.html = true →
        _simple_has_percent root.html = false →
        classify_site root deps = ("NO_RATES_FOUND", "No percent values found", 0, true)) ∧
      (_is_hard_block (some root.status) root.signals = false → deps = [] →
        looks_js_empty root.html = false → _simple_has_usd root.html = true →
        _simple_has_percent root.html = true →
        classify_site root deps =
          ("NO_MATCHING_DEPOSITS",
            "USD markers exist but no valid deposit/rate pairs detected", 0, true))) ∧
    classify_site ⟨503, "status=503", ""⟩ [] = ("BLOCKED", "status=503", 0, false) := by
  refine ⟨fun root deps => ⟨?_, ?_, ?_, ?_, ?_, ?_⟩, by decide⟩
  · intro h
    simp [classify_site, h]
  · intro h hne
    simp [classify_site, h, List.length_pos.mpr hne]
  · intro h hdeps hjs
    subst hdeps
    simp [classify_site, h, hjs]
  · intro h hdeps hjs husd
    subst hdeps
    simp [classify_site, h, hjs, husd]
  · intro h hdeps hjs husd hpct
    subst hdeps
    simp [classify_site, h, hjs, husd, hpct]
  · intro h hdeps hjs husd hpct
    subst hdeps
    simp [classify_site, h, hjs, husd, hpct]

/-- C4 witness: the blocked rule at a 403 root fetch and the `OK` rule
at a root fetch with one record, concretely. -/
theorem c4_witness :
    classify_site ⟨403, "status=403", ""⟩ [] = ("BLOCKED", "status=403", 0, false) ∧
    classify_site ⟨200, "", ""⟩ [⟨"B", "s", "N", mkRat 3 40, "USD", "u"⟩] =
      ("OK", "", 1, true) :=
  ⟨(c4_result_kind_priority.1 ⟨403, "status=403", ""⟩ []).1 (by decide),
    (c4_result_kind_priority.1 ⟨200, "", ""⟩ [⟨"B", "s", "N", mkRat 3 40, "USD", "u"⟩]).2.1
      (by decide) (by simp)⟩

/-! C5: one SiteOutcome per input URL, failures isolated -/

/-- C5.  The run produces exactly one `SiteStatus` per input URL, in
input order (`run_all` is a total map over the URL list, so no site's
outcome — error or not — affects any other), and an uncaught
exception yields result `ERROR` with note `class name: message[:180]`
and zero rows. -/
theorem c5_one_outcome_per_url :
    (∀ (step : String → SiteRun) (urls : List String),
      (run_all step urls).length = urls.length ∧
      (run_all step urls).map SiteStatus.input_url = urls ∧
      (∀ i : Nat, (run_all step urls)[i]? = (urls[i]?).map fun u => run_site u (step u))) ∧
    (∀ (url : String) (status : Option Int) (signals exName exMsg : String),
      run_site url (.raised status signals exName exMsg) =
        ⟨url, domain_of url, status, signals, "ERROR",
          exName ++ ": " ++ pyTake exMsg 180, 0⟩) := by
  refine ⟨fun step urls => ⟨?_, ?_, ?_⟩, fun url st sg n m => rfl⟩
  · simp [run_all]
  · induction urls with
    | nil => rfl
    | cons u rest ih =>
      simp only [run_all, List.map_cons, List.map_map] at ih ⊢
      rw [show (run_site u (step u)).input_url = u from by cases step u <;> rfl, ih]
  · intro i
    simp [run_all]

/-! C6: the generic crawl is bounded and never revisits a URL -/

theorem crawlSteps_visited_le (web : String → PageData) (q : List (String × Nat))
    (visited : List String) (acc : List Deposit) (h : visited.length ≤ 20) :
    (crawlSteps web q visited acc).1.length ≤ 20 := by
  refine crawlSteps.induct web
    (fun q visited acc => visited.length ≤ 20 → (crawlSteps web q visited acc).1.length ≤ 20)
    ?_ ?_ ?_ ?_ q visited acc h
  · intro q v a hge hle
    rw [crawlSteps.eq_def, if_pos hge]
    exact hle
  · intro v a hlt hle
    rw [crawlSteps.eq_def, if_neg hlt]
    exact hle
  · intro v a hlt u depth rest hmem ih hle
    rw [crawlSteps.eq_def, if_neg hlt]
    dsimp only
    rw [if_pos hmem]
    exact ih hle
  · intro v a hlt u depth rest hmem visited' p deps q' ih hle
    rw [crawlSteps.eq_def, if_neg hlt]
    dsimp only
    rw [if_neg hmem]
    exact ih (by show (v ++ [u]).length ≤ 20; simp only [List.length_append, List.length_cons,
      List.length_nil]; omega)

theorem crawlSteps_visited_nodup (web : String → PageData) (q : List (String × Nat))
    (visited : List String) (acc : List Deposit) (h : visited.Nodup) :
    (crawlSteps web q visited acc).1.Nodup := by
  refine crawlSteps.induct web
    (fun q visited acc => visited.Nodup → (crawlSteps web q visited acc).1.Nodup)
    ?_ ?_ ?_ ?_ q visited acc h
  · intro q v a hge hnd
    rw [crawlSteps.eq_def, if_pos hge]
    exact hnd
  · intro v a hlt hnd
    rw [crawlSteps.eq_def, if_neg hlt]
    exact hnd
  · intro v a hlt u depth rest hmem ih hnd
    rw [crawlSteps.eq_def, if_neg hlt]
    dsimp only
    rw [if_pos hmem]
    exact ih hnd
  · intro v a hlt u depth rest hmem visited' p deps q' ih hnd
    rw [crawlSteps.eq_def, if_neg hlt]
    dsimp only
    rw [if_neg hmem]
    refine ih ?_
    show (v ++ [u]).Nodup
    rw [List.nodup_append]
    exact ⟨hnd, List.nodup_singleton u,
      fun x hx hxu => hmem ((List.mem_singleton.mp hxu) ▸ hx)⟩

theorem clGo_length_le (lim : Nat) (base : String) :
    ∀ (anchors : List Anchor) (seen out : List String),
      out.length < lim → (clGo lim base anchors seen out).length ≤ lim := by
  intro anchors
  induction anchors with
  | nil =>
    intro seen out h
    rw [clGo]
    exact Nat.le_of_lt h
  | cons a rest ih =>
    intro seen out h
    rw [clGo]
    split
    · split
      · exact Nat.le_of_lt h
      · exact ih seen out h
    · split
      · split
        · exact Nat.le_of_lt h
        · exact ih seen out h
      · split
        · split
          · exact Nat.le_of_lt h
          · exact ih seen out h
        · dsimp only
          by_cases hw : linkWanted a.url a.text = true
          · rw [if_pos hw]
            split
            · rename_i hge
              simp only [List.length_append, List.length_cons, List.length_nil]
              omega
            · rename_i hge
              refine ih _ _ ?_
              simpa using Nat.lt_of_not_le (by simpa using hge)
          · rw [if_neg hw]
            split
            · exact Nat.le_of_lt h
            · exact ih _ _ h

theorem next_frontier_depth1 (rest : List (String × Nat)) (links visited : List String) :
    next_frontier 1 rest links visited = rest := by
  simp [next_frontier]

theorem next_frontier_depth0_mem (rest : List (String × Nat)) (links visited : List String) :
    ∀ e ∈ next_frontier 0 rest links visited, e ∈ rest ∨ e.2 = 1 := by
  intro e he
  simp only [next_frontier, if_pos (by norm_num : (0 : Nat) < 1)] at he
  rcases List.mem_append.mp he with h | h
  · exact Or.inl h
  · right
    rcases List.mem_map.mp h with ⟨l, -, rfl⟩
    rfl

/-- C6.  One site's crawl is bounded: it visits at most 20 pages
(`len(visited) < 20` loop guard), never processes the same URL twice
(the visited list stays duplicate-free), harvests at most 200 links per
page (`_collect_links` limit), only depth-0 pages enqueue links
(`next_frontier` at depth 1 leaves the frontier unchanged), and every
enqueued entry has depth 1 — so every frontier entry of the crawl
started at `[(url, 0)]` has depth 0 or 1. -/
theorem c6_crawl_bounded_terminates :
    (∀ (web : String → PageData) (url : String),
      (crawlSteps web [(url, 0)] [] []).1.length ≤ 20) ∧
    (∀ (web : String → PageData) (url : String),
      (crawlSteps web [(url, 0)] [] []).1.Nodup) ∧
    (∀ (base : String) (anchors : List Anchor),
      (_collect_links base anchors 200).length ≤ 200) ∧
    (∀ (rest : List (String × Nat)) (links visited : List String),
      next_frontier 1 rest links visited = rest) ∧
    (∀ (rest : List (String × Nat)) (links visited : List String),
      ∀ e ∈ next_frontier 0 rest links visited, e ∈ rest ∨ e.2 = 1) :=
  ⟨fun web url => crawlSteps_visited_le web [(url, 0)] [] [] (by simp),
    fun web url => crawlSteps_visited_nodup web [(url, 0)] [] [] List.nodup_nil,
    fun base anchors => clGo_length_le 200 base anchors [] [] (by simp),
    next_frontier_depth1,
    next_frontier_depth0_mem⟩

/-- C6 witness: the depth-0 enqueue rule at a concrete frontier. -/
theorem c6_witness :
    (("https://a.example/deposits", 1) ∈ ([] : List (String × Nat)) ∨
      (("https://a.example/deposits", 1) : String × Nat).2 = 1) ∧
    next_frontier 1 [("x", 1)] ["https://a.example/deposits"] [] = [("x", 1)] :=
  ⟨c6_crawl_bounded_terminates.2.2.2.2 [] ["https://a.example/deposits"] []
      ("https://a.example/deposits", 1) (by decide),
    c6_crawl_bounded_terminates.2.2.2.1 [("x", 1)] ["https://a.example/deposits"] []⟩

end Scraper
